import Mathlib

/-!
Shallow embedding of the lightnn convolution layer
(src/lightnn/layers/ConvLayer.py): the Filter parameter container, the
convolution kernel operations (zero padding, strided cross-correlation
into a caller-supplied buffer, sensitivity-map expansion) and the
ConvLayer forward / backward / update passes.  Array entries are
modelled as rationals; numpy arrays are modelled as a shape together
with a total data function (entries outside the declared bounds are
irrelevant junk).
-/

namespace LightNN

/-- A rank-3 numpy array: spatial height, width, channel plus data. -/
structure Tensor3 where
  height : ℕ
  width : ℕ
  channel : ℕ
  data : ℕ → ℕ → ℕ → ℚ

/-- A rank-2 numpy array, or a 2-D slice view a[:, :, k] of a rank-3 one. -/
structure Matrix2 where
  height : ℕ
  width : ℕ
  data : ℕ → ℕ → ℚ

/-- np.zeros([h, w, c]). -/
def Tensor3.zeros (h w c : ℕ) : Tensor3 := ⟨h, w, c, fun _ _ _ => 0⟩

/-- One scalar store outputs[i, j] = v. -/
def Matrix2.set (m : Matrix2) (i j : ℕ) (v : ℚ) : Matrix2 :=
  ⟨m.height, m.width, fun a b => if a = i ∧ b = j then v else m.data a b⟩

/-- The 2-D slice t[:, :, k] of a rank-3 array. -/
def Tensor3.sliceChannel (t : Tensor3) (k : ℕ) : Matrix2 :=
  ⟨t.height, t.width, fun i j => t.data i j k⟩

/-- Writing a 2-D matrix through the slice view t[:, :, k] (numpy slice
assignment mutates the underlying array). -/
def Tensor3.writeChannel (t : Tensor3) (k : ℕ) (m : Matrix2) : Tensor3 :=
  ⟨t.height, t.width, t.channel, fun i j c => if c = k then m.data i j else t.data i j c⟩

/-- m[:, :, None] : view a rank-2 array as a single-channel rank-3 one. -/
def Matrix2.promote (m : Matrix2) : Tensor3 :=
  ⟨m.height, m.width, 1, fun i j _ => m.data i j⟩

/-- A numpy array of arbitrary rank: a shape list plus total data indexed
by full index lists. -/
structure NDArray where
  shape : List ℕ
  data : List ℕ → ℚ

/-- The rank (number of axes) of the array. -/
def NDArray.ndim (a : NDArray) : ℕ := a.shape.length

/-- a[:, :, None] on a rank-2 array. -/
def NDArray.promote2 (a : NDArray) : NDArray :=
  ⟨a.shape ++ [1], fun l => match l with
    | [i, j, _] => a.data [i, j]
    | _ => 0⟩

/-- The normalisation step `if inputs.ndim == 2: inputs = inputs[:,:,None]`. -/
def NDArray.promoteIfRank2 (a : NDArray) : NDArray :=
  if a.ndim = 2 then a.promote2 else a

/-- Read a rank-3 array into the Tensor3 view. -/
def NDArray.toT3 (a : NDArray) : Tensor3 :=
  ⟨a.shape.getD 0 0, a.shape.getD 1 0, a.shape.getD 2 0, fun i j k => a.data [i, j, k]⟩

/-- Forget the Tensor3 view back into a rank-3 NDArray. -/
def Tensor3.toND (t : Tensor3) : NDArray :=
  ⟨[t.height, t.width, t.channel], fun l => match l with
    | [i, j, k] => t.data i j k
    | _ => 0⟩

/-- Forget the Matrix2 view into a rank-2 NDArray. -/
def Matrix2.toND (m : Matrix2) : NDArray :=
  ⟨[m.height, m.width], fun l => match l with
    | [i, j] => m.data i j
    | _ => 0⟩

/-- Message of the rank error raised by ConvLayer._padding and for the
first argument of ConvLayer._conv. -/
def errInput : String := "Your input must be a 2-D or 3-D tensor."

/-- Message of the rank error raised for the second argument of
ConvLayer._conv. -/
def errFilter : String := "Your filter_W must be a 2-D or 3-D tensor."

/-- Message of the numpy broadcast failure raised by an in-place
arithmetic operation on arrays of incompatible shapes. -/
def errBroadcast : String := "operands could not be broadcast together"

/-- The rank-3 body of ConvLayer._padding: np.zeros of the enlarged shape
with the original values written into the centre. -/
def pad3 (t : Tensor3) (zp : ℕ × ℕ) : Tensor3 :=
  ⟨t.height + 2 * zp.1, t.width + 2 * zp.2, t.channel, fun i j k =>
    if zp.1 ≤ i ∧ i < t.height + zp.1 ∧ zp.2 ≤ j ∧ j < t.width + zp.2 then
      t.data (i - zp.1) (j - zp.2) k
    else 0⟩

/-- ConvLayer._padding: return the input unchanged on (0, 0) padding,
otherwise promote a rank-2 input, pad a rank-3 one and raise on any other
rank. -/
def _padding (inputs : NDArray) (zero_padding : ℕ × ℕ) : Except String NDArray :=
  if zero_padding = (0, 0) then .ok inputs
  else
    let inputs := inputs.promoteIfRank2
    if inputs.ndim = 3 then .ok (pad3 inputs.toT3 zero_padding).toND
    else .error errInput

/-- ConvLayer._padding as the layer invokes it, on a rank-3 tensor. -/
def paddingCore (t : Tensor3) (zp : ℕ × ℕ) : Tensor3 :=
  if zp = (0, 0) then t else pad3 t zp

/-- np.sum(inputs[bh:bh+f_height, bw:bw+f_width, :] * filter_W): the
window product sum of one output cell. -/
def windowSum (inputs filter_W : Tensor3) (bh bw : ℕ) : ℚ :=
  ∑ r ∈ Finset.range filter_W.height, ∑ c ∈ Finset.range filter_W.width,
    ∑ ch ∈ Finset.range filter_W.channel,
      inputs.data (bh + r) (bw + c) ch * filter_W.data r c ch

/-- The inner loop of ConvLayer._conv over idx_width, including the
break as soon as the window end passes the input bounds. -/
def convInner (inputs filter_W : Tensor3) (filter_b : ℚ)
    (stride_width i_height i_width idx_height bh eh : ℕ) :
    ℕ → ℕ → ℕ → ℕ → Matrix2 → Matrix2
  | 0, _, _, _, out => out
  | n + 1, idx_width, bw, ew, out =>
    if i_height < eh ∨ i_width < ew then out
    else
      convInner inputs filter_W filter_b stride_width i_height i_width idx_height bh eh n
        (idx_width + 1) (bw + stride_width) (ew + stride_width)
        (out.set idx_height idx_width (windowSum inputs filter_W bh bw + filter_b))

/-- The outer loop of ConvLayer._conv over idx_height; bw and ew restart
at 0 and f_width on every row while bh and eh advance by the stride. -/
def convOuter (inputs filter_W : Tensor3) (filter_b : ℚ)
    (stride_height stride_width i_height i_width o_width f_width : ℕ) :
    ℕ → ℕ → ℕ → ℕ → Matrix2 → Matrix2
  | 0, _, _, _, out => out
  | n + 1, idx_height, bh, eh, out =>
    convOuter inputs filter_W filter_b stride_height stride_width i_height i_width o_width
      f_width n (idx_height + 1) (bh + stride_height) (eh + stride_height)
      (convInner inputs filter_W filter_b stride_width i_height i_width idx_height bh eh
        o_width 0 0 f_width out)

/-- ConvLayer._conv after rank normalisation: the strided sliding-window
cross-correlation written into the caller-supplied outputs buffer. -/
def convCore (inputs filter_W : Tensor3) (outputs : Matrix2) (filter_b : ℚ)
    (stride : ℕ × ℕ) : Matrix2 :=
  convOuter inputs filter_W filter_b stride.1 stride.2 inputs.height inputs.width
    outputs.width filter_W.width outputs.height 0 0 filter_W.height outputs

/-- ConvLayer._conv: rank checks and promotion on both array arguments,
then the correlation loops.  The numpy elementwise product additionally
requires the window and filter shapes to agree, which holds at every
call site of this file. -/
def _conv (inputs filter_W : NDArray) (outputs : Matrix2) (filter_b : ℚ)
    (stride : ℕ × ℕ) : Except String Matrix2 :=
  if inputs.ndim = 2 ∨ inputs.ndim = 3 then
    if filter_W.ndim = 2 ∨ filter_W.ndim = 3 then
      .ok (convCore inputs.promoteIfRank2.toT3 filter_W.promoteIfRank2.toT3 outputs
        filter_b stride)
    else .error errFilter
  else .error errInput

/-- One store of ConvLayer.__expand_sensitive_map:
expanded[stride_height * i, stride_width * j, :] = pre_delta_map[i, j, :]. -/
def expandWrite (m pre : Tensor3) (sh sw i j : ℕ) : Tensor3 :=
  ⟨m.height, m.width, m.channel, fun a b k =>
    if a = sh * i ∧ b = sw * j then pre.data i j k else m.data a b k⟩

/-- Inner loop of ConvLayer.__expand_sensitive_map over j. -/
def expandCols (pre : Tensor3) (sh sw i : ℕ) : ℕ → ℕ → Tensor3 → Tensor3
  | 0, _, m => m
  | n + 1, j, m => expandCols pre sh sw i n (j + 1) (expandWrite m pre sh sw i j)

/-- Outer loop of ConvLayer.__expand_sensitive_map over i. -/
def expandRows (pre : Tensor3) (sh sw : ℕ) : ℕ → ℕ → Tensor3 → Tensor3
  | 0, _, m => m
  | n + 1, i, m => expandRows pre sh sw n (i + 1) (expandCols pre sh sw i pre.width 0 m)

/-- ConvLayer.__expand_sensitive_map: reinsert the stride zeros.  The
expanded sizes follow the source formula (height - 1) * stride_height + 1
computed over the integers as in Python. -/
def expandSensitiveMap (pre : Tensor3) (stride : ℕ × ℕ) : Tensor3 :=
  expandRows pre stride.1 stride.2 pre.height 0
    (Tensor3.zeros (((pre.height : ℤ) - 1) * stride.1 + 1).toNat
      (((pre.width : ℤ) - 1) * stride.2 + 1).toNat pre.channel)

/-- rot_weights: np.rot90(plane, 2) applied to each channel of the filter
weights, i.e. both spatial axes reversed. -/
def rotWeights (w : Tensor3) : Tensor3 :=
  ⟨w.height, w.width, w.channel, fun i j k =>
    w.data (w.height - 1 - i) (w.width - 1 - j) k⟩

/-- np.sum over a 2-D slice. -/
def Matrix2.sumAll (m : Matrix2) : ℚ :=
  ∑ i ∈ Finset.range m.height, ∑ j ∈ Finset.range m.width, m.data i j

/-- In-place numpy += on rank-3 arrays; at the call site in backward the
numpy broadcast rule degenerates to exact shape equality (the only
axis lengths that appear are shared between the two operands). -/
def addInPlace (b a : Tensor3) : Except String Tensor3 :=
  if b.height = a.height ∧ b.width = a.width ∧ b.channel = a.channel then
    .ok ⟨b.height, b.width, b.channel, fun i j k => b.data i j k + a.data i j k⟩
  else .error errBroadcast

/-- In-place numpy *= on rank-3 arrays, with the same shape discipline. -/
def mulInPlace (b a : Tensor3) : Except String Tensor3 :=
  if b.height = a.height ∧ b.width = a.width ∧ b.channel = a.channel then
    .ok ⟨b.height, b.width, b.channel, fun i j k => b.data i j k * a.data i j k⟩
  else .error errBroadcast

/-- The zero-padding amount computed at the top of ConvLayer.backward:
max(0, (input_len + filter_len - expanded_len - 1) // 2) with Python
floor division on possibly negative integers. -/
def backwardPadCompute (input_len filter_len expanded_len : ℕ) : ℕ :=
  (max 0 (Int.fdiv ((input_len : ℤ) + filter_len - expanded_len - 1) 2)).toNat

/-- The activator capability: an elementwise forward nonlinearity and its
elementwise derivative. -/
structure Activator where
  forward : ℚ → ℚ
  backward : ℚ → ℚ

/-- activator.forward applied to a whole tensor. -/
def Activator.forwardT (a : Activator) (t : Tensor3) : Tensor3 :=
  ⟨t.height, t.width, t.channel, fun i j k => a.forward (t.data i j k)⟩

/-- activator.backward applied to a whole tensor. -/
def Activator.backwardT (a : Activator) (t : Tensor3) : Tensor3 :=
  ⟨t.height, t.width, t.channel, fun i j k => a.backward (t.data i j k)⟩

/-- The Filter parameter container: weights, bias and their gradient
accumulators. -/
structure Filter where
  filter_height : ℕ
  filter_width : ℕ
  filter_channel : ℕ
  W : Tensor3
  b : ℚ
  delta_W : Tensor3
  delta_b : ℚ

/-- A throwaway Filter used only as the default of List.getD. -/
def dummyFilter : Filter :=
  ⟨0, 0, 0, Tensor3.zeros 0 0 0, 0, Tensor3.zeros 0 0 0, 0⟩

/-- Filter.__init__: initializer-seeded W of the requested shape, zero
bias, zero gradients.  The initializer maps a requested shape to the
entries of the initial weight tensor. -/
def Filter.make (filter_height filter_width filter_channel : ℕ)
    (initializer : ℕ → ℕ → ℕ → ℕ → ℕ → ℕ → ℚ) : Filter :=
  ⟨filter_height, filter_width, filter_channel,
   ⟨filter_height, filter_width, filter_channel,
    initializer filter_height filter_width filter_channel⟩,
   0, Tensor3.zeros filter_height filter_width filter_channel, 0⟩

/-- Filter.update: W -= delta_W ; b -= delta_b. -/
def Filter.update (f : Filter) : Filter :=
  { f with
    W := ⟨f.W.height, f.W.width, f.W.channel,
      fun i j k => f.W.data i j k - f.delta_W.data i j k⟩,
    b := f.b - f.delta_b }

/-- ConvLayer._calc_output_size:
(input_len + 2 * zero_padding - filter_len) // stride + 1, over ℕ, which
agrees with the Python integers whenever the filter fits in the padded
input (the validated-geometry contract). -/
def calcOutputSize (input_len filter_len stride zero_padding : ℕ) : ℕ :=
  (input_len + 2 * zero_padding - filter_len) / stride + 1

/-- The ConvLayer state: static geometry, filters, and the tensors the
layer retains between calls. -/
structure ConvLayer where
  input_height : ℕ
  input_width : ℕ
  input_channel : ℕ
  filter_height : ℕ
  filter_width : ℕ
  filter_num : ℕ
  filters : List Filter
  zero_padding : ℕ × ℕ
  stride : ℕ × ℕ
  output_height : ℕ
  output_width : ℕ
  output_channel : ℕ
  output : Tensor3
  activator : Activator
  delta : Tensor3
  lr : ℚ
  input : Tensor3
  padded_input : Tensor3

/-- ConvLayer.__init__ on already-validated parameters (the dimension
check is an external collaborator).  input and padded_input are only
assigned by forward; before that they hold empty placeholders.  Note
that the source allocates the delta buffer as
np.zeros((self.input_width, self.input_height, self.input_channel)),
width first. -/
def mkConvLayer (input_height input_width input_channel filter_height filter_width
    filter_num : ℕ) (zero_padding stride : ℕ × ℕ) (activator : Activator)
    (initializer : ℕ → ℕ → ℕ → ℕ → ℕ → ℕ → ℚ) (lr : ℚ) : ConvLayer where
  input_height := input_height
  input_width := input_width
  input_channel := input_channel
  filter_height := filter_height
  filter_width := filter_width
  filter_num := filter_num
  filters := List.replicate filter_num
    (Filter.make filter_height filter_width input_channel initializer)
  zero_padding := zero_padding
  stride := stride
  output_height := calcOutputSize input_height filter_height stride.1 zero_padding.1
  output_width := calcOutputSize input_width filter_width stride.2 zero_padding.2
  output_channel := filter_num
  output := Tensor3.zeros (calcOutputSize input_height filter_height stride.1 zero_padding.1)
    (calcOutputSize input_width filter_width stride.2 zero_padding.2) filter_num
  activator := activator
  delta := Tensor3.zeros input_width input_height input_channel
  lr := lr
  input := Tensor3.zeros 0 0 0
  padded_input := Tensor3.zeros 0 0 0

/-- The forward loop: one correlation per filter, written into the
filter's output channel. -/
def forwardLoop (padded : Tensor3) (stride : ℕ × ℕ) :
    List Filter → ℕ → Tensor3 → Tensor3
  | [], _, out => out
  | f :: fs, o_c, out =>
    forwardLoop padded stride fs (o_c + 1)
      (out.writeChannel o_c (convCore padded f.W (out.sliceChannel o_c) f.b stride))

/-- ConvLayer.forward: store the input and its padded form, correlate
every filter into the output buffer, apply the activator.  The returned
output tensor is the output field of the new state. -/
def ConvLayer.forward (L : ConvLayer) (input : Tensor3) : ConvLayer :=
  let padded_input := paddingCore input L.zero_padding
  let out := L.activator.forwardT (forwardLoop padded_input L.stride L.filters 0 L.output)
  { L with input := input, padded_input := padded_input, output := out }

/-- The per-channel loop inside ConvLayer.backward for one filter: for
each input channel, correlate the padded delta slice against the rotated
weights into delta_a, and the padded input slice against the expanded
delta slice into the filter's delta_W.  All four 2-D slice arguments go
through the single-channel promotion of _conv. -/
def channelLoop (padded_delta_i : Matrix2) (rot_weights padded_input : Tensor3)
    (expanded_i : Matrix2) : ℕ → ℕ → Tensor3 × Tensor3 → Tensor3 × Tensor3
  | 0, _, s => s
  | n + 1, i_c, s =>
    channelLoop padded_delta_i rot_weights padded_input expanded_i n (i_c + 1)
      (s.1.writeChannel i_c
        (convCore padded_delta_i.promote (rot_weights.sliceChannel i_c).promote
          (s.1.sliceChannel i_c) 0 (1, 1)),
       s.2.writeChannel i_c
        (convCore (padded_input.sliceChannel i_c).promote expanded_i.promote
          (s.2.sliceChannel i_c) 0 (1, 1)))

/-- The loop of ConvLayer.backward over the filters: rotate the weights,
build delta_a from a fresh zero tensor, overwrite the filter's delta_W
and delta_b, and accumulate delta_a into the layer's delta buffer with
an in-place +=. -/
def backwardFilters (padded_delta expanded padded_input : Tensor3)
    (input_height input_width input_channel : ℕ) :
    List Filter → ℕ → Tensor3 → Except String (List Filter × Tensor3)
  | [], _, delta => .ok ([], delta)
  | f :: fs, i, delta =>
    let p := channelLoop (padded_delta.sliceChannel i) (rotWeights f.W) padded_input
      (expanded.sliceChannel i) input_channel 0
      (Tensor3.zeros input_height input_width input_channel, f.delta_W)
    match addInPlace delta p.1 with
    | .error e => .error e
    | .ok delta2 =>
      match backwardFilters padded_delta expanded padded_input input_height input_width
        input_channel fs (i + 1) delta2 with
      | .error e => .error e
      | .ok (fs2, d) =>
        .ok ({ f with delta_W := p.2, delta_b := (expanded.sliceChannel i).sumAll } :: fs2, d)

/-- ConvLayer.backward: expand the sensitivity map, compute and apply
the backward zero padding, run the filter loop, and multiply the delta
buffer elementwise by the activator derivative at the stored input.
The returned gradient tensor is the delta field of the new state. -/
def ConvLayer.backward (L : ConvLayer) (pre_delta_map : Tensor3) :
    Except String ConvLayer :=
  let expanded := expandSensitiveMap pre_delta_map L.stride
  let zp := (backwardPadCompute L.input_height L.filter_height expanded.height,
             backwardPadCompute L.input_width L.filter_width expanded.width)
  let padded_delta := paddingCore expanded zp
  match backwardFilters padded_delta expanded L.padded_input L.input_height L.input_width
    L.input_channel L.filters 0 L.delta with
  | .error e => .error e
  | .ok (filters2, delta2) =>
    match mulInPlace delta2 (L.activator.backwardT L.input) with
    | .error e => .error e
    | .ok delta3 => .ok { L with filters := filters2, delta := delta3 }

/-- ConvLayer.update: scale each filter's delta_W and delta_b by the
learning rate in place, then invoke Filter.update. -/
def ConvLayer.update (L : ConvLayer) : ConvLayer :=
  { L with filters := L.filters.map (fun f =>
      Filter.update { f with
        delta_W := ⟨f.delta_W.height, f.delta_W.width, f.delta_W.channel,
          fun i j k => f.delta_W.data i j k * L.lr⟩,
        delta_b := f.delta_b * L.lr }) }

/-! ### Characterisation of the correlation loops -/

/-- Extensionality for the Matrix2 view. -/
lemma Matrix2.ext2 {m1 m2 : Matrix2} (hh : m1.height = m2.height)
    (hw : m1.width = m2.width) (hd : ∀ i j, m1.data i j = m2.data i j) : m1 = m2 := by
  cases m1
  cases m2
  simp only [Matrix2.mk.injEq] at *
  refine ⟨hh, hw, ?_⟩
  funext i j
  exact hd i j

lemma convInner_height (A F : Tensor3) (fb : ℚ) (sw ih iw idh bh eh : ℕ) :
    ∀ (n w0 bw ew : ℕ) (out : Matrix2),
      (convInner A F fb sw ih iw idh bh eh n w0 bw ew out).height = out.height := by
  intro n
  induction n with
  | zero => intro w0 bw ew out; rfl
  | succ n IH =>
    intro w0 bw ew out
    simp only [convInner]
    split
    · rfl
    · rw [IH]; rfl

lemma convInner_width (A F : Tensor3) (fb : ℚ) (sw ih iw idh bh eh : ℕ) :
    ∀ (n w0 bw ew : ℕ) (out : Matrix2),
      (convInner A F fb sw ih iw idh bh eh n w0 bw ew out).width = out.width := by
  intro n
  induction n with
  | zero => intro w0 bw ew out; rfl
  | succ n IH =>
    intro w0 bw ew out
    simp only [convInner]
    split
    · rfl
    · rw [IH]; rfl

lemma convOuter_height (A F : Tensor3) (fb : ℚ) (sh sw ih iw ow fw : ℕ) :
    ∀ (n h0 bh eh : ℕ) (out : Matrix2),
      (convOuter A F fb sh sw ih iw ow fw n h0 bh eh out).height = out.height := by
  intro n
  induction n with
  | zero => intro h0 bh eh out; rfl
  | succ n IH =>
    intro h0 bh eh out
    simp only [convOuter]
    rw [IH, convInner_height]

lemma convOuter_width (A F : Tensor3) (fb : ℚ) (sh sw ih iw ow fw : ℕ) :
    ∀ (n h0 bh eh : ℕ) (out : Matrix2),
      (convOuter A F fb sh sw ih iw ow fw n h0 bh eh out).width = out.width := by
  intro n
  induction n with
  | zero => intro h0 bh eh out; rfl
  | succ n IH =>
    intro h0 bh eh out
    simp only [convOuter]
    rw [IH, convInner_width]

lemma convCore_height (A F : Tensor3) (out : Matrix2) (fb : ℚ) (s : ℕ × ℕ) :
    (convCore A F out fb s).height = out.height := by
  unfold convCore
  rw [convOuter_height]

lemma convCore_width (A F : Tensor3) (out : Matrix2) (fb : ℚ) (s : ℕ × ℕ) :
    (convCore A F out fb s).width = out.width := by
  unfold convCore
  rw [convOuter_width]

/-- Cell-level description of the inner correlation loop: starting from
column w0 with window begin bw (and window end bw + filter width), the
loop writes exactly the cells of row idh whose window fits inside the
input, in increasing column order, and leaves every other cell of the
buffer untouched. -/
lemma convInner_data (A F : Tensor3) (fb : ℚ) (sw ih iw idh bh eh : ℕ) :
    ∀ (n w0 bw ew : ℕ) (out : Matrix2) (a b : ℕ), ew = bw + F.width →
      (convInner A F fb sw ih iw idh bh eh n w0 bw ew out).data a b =
      if a = idh ∧ w0 ≤ b ∧ b < w0 + n ∧ eh ≤ ih ∧ bw + (b - w0) * sw + F.width ≤ iw then
        windowSum A F bh (bw + (b - w0) * sw) + fb
      else out.data a b := by
  intro n
  induction n with
  | zero =>
    intro w0 bw ew out a b hew
    simp only [convInner]
    rw [if_neg]
    rintro ⟨-, h1, h2, -⟩
    omega
  | succ n IH =>
    intro w0 bw ew out a b hew
    subst hew
    simp only [convInner]
    split
    · rename_i hbrk
      rw [if_neg]
      rintro ⟨-, -, -, h4, h5⟩
      have h6 : bw + F.width ≤ bw + (b - w0) * sw + F.width :=
        Nat.add_le_add_right (Nat.le_add_right bw _) F.width
      have h7 : bw + F.width ≤ iw := le_trans h6 h5
      rcases hbrk with h | h
      · omega
      · omega
    · rename_i hbrk
      push_neg at hbrk
      obtain ⟨hbrk1, hbrk2⟩ := hbrk
      rw [IH (w0 + 1) (bw + sw) (bw + F.width + sw) _ a b (by omega)]
      by_cases ha : a = idh
      · subst ha
        by_cases hb : b = w0
        · subst hb
          rw [if_neg (fun h => Nat.not_succ_le_self b h.2.1),
            if_pos ⟨rfl, le_refl b, by omega, hbrk1, by simpa using hbrk2⟩]
          simp [Matrix2.set]
        · by_cases hge : w0 + 1 ≤ b
          · have key : bw + sw + (b - (w0 + 1)) * sw = bw + (b - w0) * sw := by
              have h1 : b - w0 = (b - (w0 + 1)) + 1 := by omega
              rw [h1, Nat.add_mul, one_mul]
              ring
            rw [key]
            by_cases hfit : b < w0 + 1 + n ∧ bw + (b - w0) * sw + F.width ≤ iw
            · rw [if_pos ⟨rfl, hge, hfit.1, hbrk1, hfit.2⟩,
                if_pos ⟨rfl, by omega, by omega, hbrk1, hfit.2⟩]
            · rw [if_neg (fun h => hfit ⟨h.2.2.1, h.2.2.2.2⟩),
                if_neg (fun h => hfit ⟨by omega, h.2.2.2.2⟩)]
              simp [Matrix2.set, hb]
          · rw [if_neg (fun h => hge h.2.1), if_neg (fun h => by omega)]
            simp [Matrix2.set, hb]
      · rw [if_neg (fun h => ha h.1), if_neg (fun h => ha h.1)]
        simp [Matrix2.set, ha]

/-- Cell-level description of the outer correlation loop. -/
lemma convOuter_data (A F : Tensor3) (fb : ℚ) (sh sw ih iw ow : ℕ) :
    ∀ (n h0 bh eh : ℕ) (out : Matrix2) (a b : ℕ), eh = bh + F.height →
      (convOuter A F fb sh sw ih iw ow F.width n h0 bh eh out).data a b =
      if h0 ≤ a ∧ a < h0 + n ∧ b < ow ∧ bh + (a - h0) * sh + F.height ≤ ih ∧
          b * sw + F.width ≤ iw then
        windowSum A F (bh + (a - h0) * sh) (b * sw) + fb
      else out.data a b := by
  intro n
  induction n with
  | zero =>
    intro h0 bh eh out a b heh
    simp only [convOuter]
    rw [if_neg]
    rintro ⟨h1, h2, -⟩
    omega
  | succ n IH =>
    intro h0 bh eh out a b heh
    subst heh
    simp only [convOuter]
    rw [IH (h0 + 1) (bh + sh) (bh + F.height + sh) _ a b (by omega),
      convInner_data A F fb sw ih iw h0 bh (bh + F.height) ow 0 0 F.width out a b (by omega)]
    by_cases ha : h0 + 1 ≤ a
    · have key : bh + sh + (a - (h0 + 1)) * sh = bh + (a - h0) * sh := by
        have h1 : a - h0 = (a - (h0 + 1)) + 1 := by omega
        rw [h1, Nat.add_mul, one_mul]
        ring
      rw [key]
      have hni : ¬(a = h0 ∧ 0 ≤ b ∧ b < 0 + ow ∧ bh + F.height ≤ ih ∧
          0 + (b - 0) * sw + F.width ≤ iw) := fun h => absurd h.1 (by omega)
      rw [if_neg hni]
      by_cases hfit : a < h0 + 1 + n ∧ b < ow ∧ bh + (a - h0) * sh + F.height ≤ ih ∧
          b * sw + F.width ≤ iw
      · have hp1 : h0 + 1 ≤ a ∧ a < h0 + 1 + n ∧ b < ow ∧
            bh + (a - h0) * sh + F.height ≤ ih ∧ b * sw + F.width ≤ iw :=
          ⟨ha, hfit.1, hfit.2.1, hfit.2.2.1, hfit.2.2.2⟩
        have hp2 : h0 ≤ a ∧ a < h0 + (n + 1) ∧ b < ow ∧
            bh + (a - h0) * sh + F.height ≤ ih ∧ b * sw + F.width ≤ iw :=
          ⟨by omega, by omega, hfit.2.1, hfit.2.2.1, hfit.2.2.2⟩
        rw [if_pos hp1, if_pos hp2]
      · have hn1 : ¬(h0 + 1 ≤ a ∧ a < h0 + 1 + n ∧ b < ow ∧
            bh + (a - h0) * sh + F.height ≤ ih ∧ b * sw + F.width ≤ iw) :=
          fun h => hfit ⟨h.2.1, h.2.2.1, h.2.2.2.1, h.2.2.2.2⟩
        have hn2 : ¬(h0 ≤ a ∧ a < h0 + (n + 1) ∧ b < ow ∧
            bh + (a - h0) * sh + F.height ≤ ih ∧ b * sw + F.width ≤ iw) :=
          fun h => hfit ⟨by have := h.2.1; omega, h.2.2.1, h.2.2.2.1, h.2.2.2.2⟩
        rw [if_neg hn1, if_neg hn2]
    · have hn1 : ¬(h0 + 1 ≤ a ∧ a < h0 + 1 + n ∧ b < ow ∧
          bh + sh + (a - (h0 + 1)) * sh + F.height ≤ ih ∧ b * sw + F.width ≤ iw) :=
        fun h => ha h.1
      rw [if_neg hn1]
      by_cases ha0 : a = h0
      · subst ha0
        by_cases hfit : b < ow ∧ bh + F.height ≤ ih ∧ b * sw + F.width ≤ iw
        · have hp1 : a = a ∧ 0 ≤ b ∧ b < 0 + ow ∧ bh + F.height ≤ ih ∧
              0 + (b - 0) * sw + F.width ≤ iw :=
            ⟨rfl, by omega, by omega, hfit.2.1, by simpa using hfit.2.2⟩
          have hp2 : a ≤ a ∧ a < a + (n + 1) ∧ b < ow ∧
              bh + (a - a) * sh + F.height ≤ ih ∧ b * sw + F.width ≤ iw :=
            ⟨le_refl a, by omega, hfit.1, by simpa using hfit.2.1, hfit.2.2⟩
          rw [if_pos hp1, if_pos hp2]
          simp
        · have hn2 : ¬(a = a ∧ 0 ≤ b ∧ b < 0 + ow ∧ bh + F.height ≤ ih ∧
              0 + (b - 0) * sw + F.width ≤ iw) := by
            rintro ⟨-, -, hb, hfh, hfw⟩
            exact hfit ⟨by omega, hfh, by simpa using hfw⟩
          have hn3 : ¬(a ≤ a ∧ a < a + (n + 1) ∧ b < ow ∧
              bh + (a - a) * sh + F.height ≤ ih ∧ b * sw + F.width ≤ iw) := by
            rintro ⟨-, -, hb, hfh, hfw⟩
            exact hfit ⟨hb, by simpa using hfh, hfw⟩
          rw [if_neg hn2, if_neg hn3]
      · have hn2 : ¬(a = h0 ∧ 0 ≤ b ∧ b < 0 + ow ∧ bh + F.height ≤ ih ∧
            0 + (b - 0) * sw + F.width ≤ iw) := fun h => ha0 h.1
        have hn3 : ¬(h0 ≤ a ∧ a < h0 + (n + 1) ∧ b < ow ∧
            bh + (a - h0) * sh + F.height ≤ ih ∧ b * sw + F.width ≤ iw) :=
          fun h => absurd (And.intro h.1 h.2.1) (by omega)
        rw [if_neg hn2, if_neg hn3]

/-- Cell-level description of the whole correlation: a cell of the
declared output shape is written with the window sum plus the bias
exactly when its window fits inside the input; every other cell keeps
the previous contents of the buffer. -/
lemma convCore_data (A F : Tensor3) (out : Matrix2) (fb : ℚ) (sh sw a b : ℕ) :
    (convCore A F out fb (sh, sw)).data a b =
    if a < out.height ∧ b < out.width ∧ a * sh + F.height ≤ A.height ∧
        b * sw + F.width ≤ A.width then
      windowSum A F (a * sh) (b * sw) + fb
    else out.data a b := by
  unfold convCore
  rw [convOuter_data A F fb sh sw A.height A.width out.width out.height 0 0 F.height out a b
    (by omega)]
  simp only [Nat.zero_le, Nat.zero_add, Nat.sub_zero, true_and]

/-! ### Glue between the rank-dispatch entry points and the cores -/

/-- Extensionality for the Tensor3 view. -/
lemma Tensor3.ext3 {t1 t2 : Tensor3} (hh : t1.height = t2.height)
    (hw : t1.width = t2.width) (hc : t1.channel = t2.channel)
    (hd : ∀ i j k, t1.data i j k = t2.data i j k) : t1 = t2 := by
  cases t1
  cases t2
  simp only [Tensor3.mk.injEq] at *
  refine ⟨hh, hw, hc, ?_⟩
  funext i j k
  exact hd i j k

lemma toND_toT3 (t : Tensor3) : t.toND.toT3 = t := rfl

/-- On a rank-2 argument, _conv promotes and runs the correlation core. -/
lemma conv_on_rank2 (m1 m2 : Matrix2) (out : Matrix2) (fb : ℚ) (s : ℕ × ℕ) :
    _conv m1.toND m2.toND out fb s = .ok (convCore m1.promote m2.promote out fb s) := rfl

/-- On rank-3 arguments, _conv runs the correlation core directly. -/
lemma conv_on_rank3 (t f : Tensor3) (out : Matrix2) (fb : ℚ) (s : ℕ × ℕ) :
    _conv t.toND f.toND out fb s = .ok (convCore t f out fb s) := rfl

/-- On a rank-3 argument, _padding is the padding core. -/
lemma padding_on_rank3 (t : Tensor3) (zp : ℕ × ℕ) :
    _padding t.toND zp = .ok (paddingCore t zp).toND := by
  by_cases h0 : zp = (0, 0)
  · subst h0
    rfl
  · unfold _padding paddingCore
    rw [if_neg h0, if_neg h0]
    rfl

/-! ### Characterisation of the sensitivity-map expansion -/

lemma expandCols_height (pre : Tensor3) (sh sw i : ℕ) :
    ∀ (n j : ℕ) (m : Tensor3), (expandCols pre sh sw i n j m).height = m.height := by
  intro n
  induction n with
  | zero => intro j m; rfl
  | succ n IH => intro j m; simp only [expandCols]; rw [IH]; rfl

lemma expandCols_width (pre : Tensor3) (sh sw i : ℕ) :
    ∀ (n j : ℕ) (m : Tensor3), (expandCols pre sh sw i n j m).width = m.width := by
  intro n
  induction n with
  | zero => intro j m; rfl
  | succ n IH => intro j m; simp only [expandCols]; rw [IH]; rfl

lemma expandCols_channel (pre : Tensor3) (sh sw i : ℕ) :
    ∀ (n j : ℕ) (m : Tensor3), (expandCols pre sh sw i n j m).channel = m.channel := by
  intro n
  induction n with
  | zero => intro j m; rfl
  | succ n IH => intro j m; simp only [expandCols]; rw [IH]; rfl

lemma expandRows_height (pre : Tensor3) (sh sw : ℕ) :
    ∀ (n i : ℕ) (m : Tensor3), (expandRows pre sh sw n i m).height = m.height := by
  intro n
  induction n with
  | zero => intro i m; rfl
  | succ n IH => intro i m; simp only [expandRows]; rw [IH, expandCols_height]

lemma expandRows_width (pre : Tensor3) (sh sw : ℕ) :
    ∀ (n i : ℕ) (m : Tensor3), (expandRows pre sh sw n i m).width = m.width := by
  intro n
  induction n with
  | zero => intro i m; rfl
  | succ n IH => intro i m; simp only [expandRows]; rw [IH, expandCols_width]

lemma expandRows_channel (pre : Tensor3) (sh sw : ℕ) :
    ∀ (n i : ℕ) (m : Tensor3), (expandRows pre sh sw n i m).channel = m.channel := by
  intro n
  induction n with
  | zero => intro i m; rfl
  | succ n IH => intro i m; simp only [expandRows]; rw [IH, expandCols_channel]

lemma expandCols_untouched (pre : Tensor3) (sh sw i : ℕ) :
    ∀ (n j0 : ℕ) (m : Tensor3) (a b k : ℕ),
      (∀ j, j0 ≤ j → j < j0 + n → ¬(a = sh * i ∧ b = sw * j)) →
      (expandCols pre sh sw i n j0 m).data a b k = m.data a b k := by
  intro n
  induction n with
  | zero => intro j0 m a b k _; rfl
  | succ n IH =>
    intro j0 m a b k hmiss
    simp only [expandCols]
    rw [IH (j0 + 1) _ a b k (fun j h1 h2 => hmiss j (by omega) (by omega))]
    simp only [expandWrite]
    rw [if_neg (hmiss j0 (le_refl j0) (by omega))]

lemma expandCols_writes (pre : Tensor3) (sh sw i : ℕ) (hsw : 1 ≤ sw) :
    ∀ (n j0 : ℕ) (m : Tensor3) (j k : ℕ), j0 ≤ j → j < j0 + n →
      (expandCols pre sh sw i n j0 m).data (sh * i) (sw * j) k = pre.data i j k := by
  intro n
  induction n with
  | zero => intro j0 m j k h1 h2; omega
  | succ n IH =>
    intro j0 m j k h1 h2
    simp only [expandCols]
    by_cases hj : j = j0
    · subst hj
      rw [expandCols_untouched]
      · simp [expandWrite]
      · rintro j2 hj1 hj2 ⟨-, hb⟩
        have : j = j2 := Nat.eq_of_mul_eq_mul_left (by omega) hb
        omega
    · exact IH (j0 + 1) _ j k (by omega) (by omega)

lemma expandRows_untouched (pre : Tensor3) (sh sw : ℕ) :
    ∀ (n i0 : ℕ) (m : Tensor3) (a b k : ℕ),
      (∀ i j, i0 ≤ i → i < i0 + n → j < pre.width → ¬(a = sh * i ∧ b = sw * j)) →
      (expandRows pre sh sw n i0 m).data a b k = m.data a b k := by
  intro n
  induction n with
  | zero => intro i0 m a b k _; rfl
  | succ n IH =>
    intro i0 m a b k hmiss
    simp only [expandRows]
    rw [IH (i0 + 1) _ a b k (fun i j h1 h2 hj => hmiss i j (by omega) (by omega) hj),
      expandCols_untouched]
    intro j h1 h2 h
    exact hmiss i0 j (le_refl i0) (by omega) (by omega) h

lemma expandRows_writes (pre : Tensor3) (sh sw : ℕ) (hsh : 1 ≤ sh) (hsw : 1 ≤ sw) :
    ∀ (n i0 : ℕ) (m : Tensor3) (i j k : ℕ), i0 ≤ i → i < i0 + n → j < pre.width →
      (expandRows pre sh sw n i0 m).data (sh * i) (sw * j) k = pre.data i j k := by
  intro n
  induction n with
  | zero => intro i0 m i j k h1 h2 h3; omega
  | succ n IH =>
    intro i0 m i j k h1 h2 h3
    simp only [expandRows]
    by_cases hi : i = i0
    · subst hi
      rw [expandRows_untouched]
      · exact expandCols_writes pre sh sw i hsw pre.width 0 m j k (by omega) (by omega)
      · rintro i2 j2 hi1 hi2 hj2 ⟨ha, -⟩
        have : i = i2 := Nat.eq_of_mul_eq_mul_left (by omega) ha
        omega
    · exact IH (i0 + 1) _ i j k (by omega) (by omega) h3

lemma expand_height (pre : Tensor3) (s : ℕ × ℕ) (hh : 1 ≤ pre.height) :
    (expandSensitiveMap pre s).height = (pre.height - 1) * s.1 + 1 := by
  unfold expandSensitiveMap
  rw [expandRows_height]
  show (((pre.height : ℤ) - 1) * s.1 + 1).toNat = (pre.height - 1) * s.1 + 1
  rw [show ((pre.height : ℤ) - 1) * s.1 + 1 = (((pre.height - 1) * s.1 + 1 : ℕ) : ℤ) by
    push_cast [Nat.cast_sub hh]
    ring]
  exact Int.toNat_natCast _

lemma expand_width (pre : Tensor3) (s : ℕ × ℕ) (hw : 1 ≤ pre.width) :
    (expandSensitiveMap pre s).width = (pre.width - 1) * s.2 + 1 := by
  unfold expandSensitiveMap
  rw [expandRows_width]
  show (((pre.width : ℤ) - 1) * s.2 + 1).toNat = (pre.width - 1) * s.2 + 1
  rw [show ((pre.width : ℤ) - 1) * s.2 + 1 = (((pre.width - 1) * s.2 + 1 : ℕ) : ℤ) by
    push_cast [Nat.cast_sub hw]
    ring]
  exact Int.toNat_natCast _

lemma expand_channel (pre : Tensor3) (s : ℕ × ℕ) :
    (expandSensitiveMap pre s).channel = pre.channel := by
  unfold expandSensitiveMap
  rw [expandRows_channel]
  rfl

lemma expand_data_write (pre : Tensor3) (s : ℕ × ℕ) (hsh : 1 ≤ s.1) (hsw : 1 ≤ s.2)
    (i j k : ℕ) (hi : i < pre.height) (hj : j < pre.width) :
    (expandSensitiveMap pre s).data (s.1 * i) (s.2 * j) k = pre.data i j k := by
  unfold expandSensitiveMap
  exact expandRows_writes pre s.1 s.2 hsh hsw pre.height 0 _ i j k (by omega) (by omega) hj

lemma expand_data_zero (pre : Tensor3) (s : ℕ × ℕ) (a b k : ℕ)
    (h : ∀ i j, i < pre.height → j < pre.width → ¬(a = s.1 * i ∧ b = s.2 * j)) :
    (expandSensitiveMap pre s).data a b k = 0 := by
  unfold expandSensitiveMap
  rw [expandRows_untouched]
  · rfl
  · intro i j h1 h2 hj
    exact h i j (by omega) hj

/-! ### Small helper lemmas -/

lemma ndim_promote2 (a : NDArray) (h : a.ndim = 2) : a.promote2.ndim = 3 := by
  unfold NDArray.promote2 NDArray.ndim at *
  rw [List.length_append, h]
  rfl

lemma promoteIfRank2_of_rank2 (a : NDArray) (h : a.ndim = 2) :
    a.promoteIfRank2 = a.promote2 := by
  unfold NDArray.promoteIfRank2
  rw [if_pos h]

lemma promoteIfRank2_of_ne2 (a : NDArray) (h : a.ndim ≠ 2) : a.promoteIfRank2 = a := by
  unfold NDArray.promoteIfRank2
  rw [if_neg h]

lemma getD_map_of_lt {α β : Type} (g : α → β) (l : List α) (d : β) (d2 : α) :
    ∀ k : ℕ, k < l.length → (l.map g).getD k d = g (l.getD k d2) := by
  induction l with
  | nil => intro k hk; exact absurd hk (by simp)
  | cons x xs IH =>
    intro k hk
    cases k with
    | zero => rfl
    | succ k => exact IH k (by simpa using hk)

/-! ### Claim theorems -/

/-- All-ones rank-3 test array. -/
def onesND3 (h w c : ℕ) : NDArray := ⟨[h, w, c], fun _ => 1⟩

/-- Zero-initialised output buffer. -/
def zeroBuf (h w : ℕ) : Matrix2 := ⟨h, w, fun _ _ => 0⟩

/-- C4: for input and filter tensors of rank 2 or 3 (rank 2 promoted to a
single channel), every output cell (a, b) whose window fits receives the
sum over the (filter height, filter width)-sized window starting at
(a * stride_h, b * stride_w) and over all channels of input times filter
weights, plus the bias; the call itself succeeds. -/
theorem conv_output_cell_value (inputs filter_W : NDArray) (outputs : Matrix2)
    (filter_b : ℚ) (sh sw a b : ℕ)
    (hin : inputs.ndim = 2 ∨ inputs.ndim = 3)
    (hfil : filter_W.ndim = 2 ∨ filter_W.ndim = 3)
    (ha : a < outputs.height) (hb : b < outputs.width)
    (hfith : a * sh + filter_W.promoteIfRank2.toT3.height ≤ inputs.promoteIfRank2.toT3.height)
    (hfitw : b * sw + filter_W.promoteIfRank2.toT3.width ≤ inputs.promoteIfRank2.toT3.width) :
    _conv inputs filter_W outputs filter_b (sh, sw) =
      .ok (convCore inputs.promoteIfRank2.toT3 filter_W.promoteIfRank2.toT3 outputs
        filter_b (sh, sw)) ∧
    (convCore inputs.promoteIfRank2.toT3 filter_W.promoteIfRank2.toT3 outputs
        filter_b (sh, sw)).data a b =
      windowSum inputs.promoteIfRank2.toT3 filter_W.promoteIfRank2.toT3 (a * sh) (b * sw) +
        filter_b := by
  constructor
  · unfold _conv
    rw [if_pos hin, if_pos hfil]
  · rw [convCore_data, if_pos ⟨ha, hb, hfith, hfitw⟩]

/-- C4 witness: the known small convolution, a 3x3x1 all-ones input
correlated with a 2x2x1 all-ones filter, bias 0, stride (1, 1), gives a
2x2 output with every cell equal to 4. -/
theorem conv_output_cell_value_witness :
    ∃ m, _conv (onesND3 3 3 1) (onesND3 2 2 1) (zeroBuf 2 2) 0 (1, 1) = .ok m ∧
      m.data 0 0 = 4 ∧ m.data 0 1 = 4 ∧ m.data 1 0 = 4 ∧ m.data 1 1 = 4 := by
  refine ⟨_, (conv_output_cell_value (onesND3 3 3 1) (onesND3 2 2 1) (zeroBuf 2 2) 0 1 1 0 0
    (Or.inr rfl) (Or.inr rfl) (by decide) (by decide) (by decide) (by decide)).1, ?_, ?_, ?_, ?_⟩
  · rw [(conv_output_cell_value (onesND3 3 3 1) (onesND3 2 2 1) (zeroBuf 2 2) 0 1 1 0 0
      (Or.inr rfl) (Or.inr rfl) (by decide) (by decide) (by decide) (by decide)).2]
    norm_num [windowSum, Finset.sum_range_succ, onesND3, NDArray.promoteIfRank2,
      NDArray.promote2, NDArray.ndim, NDArray.toT3]
  · rw [(conv_output_cell_value (onesND3 3 3 1) (onesND3 2 2 1) (zeroBuf 2 2) 0 1 1 0 1
      (Or.inr rfl) (Or.inr rfl) (by decide) (by decide) (by decide) (by decide)).2]
    norm_num [windowSum, Finset.sum_range_succ, onesND3, NDArray.promoteIfRank2,
      NDArray.promote2, NDArray.ndim, NDArray.toT3]
  · rw [(conv_output_cell_value (onesND3 3 3 1) (onesND3 2 2 1) (zeroBuf 2 2) 0 1 1 1 0
      (Or.inr rfl) (Or.inr rfl) (by decide) (by decide) (by decide) (by decide)).2]
    norm_num [windowSum, Finset.sum_range_succ, onesND3, NDArray.promoteIfRank2,
      NDArray.promote2, NDArray.ndim, NDArray.toT3]
  · rw [(conv_output_cell_value (onesND3 3 3 1) (onesND3 2 2 1) (zeroBuf 2 2) 0 1 1 1 1
      (Or.inr rfl) (Or.inr rfl) (by decide) (by decide) (by decide) (by decide)).2]
    norm_num [windowSum, Finset.sum_range_succ, onesND3, NDArray.promoteIfRank2,
      NDArray.promote2, NDArray.ndim, NDArray.toT3]

/-- C9: the correlation core never reads an input element outside the
input bounds: it checks that the window end lies within the input before
writing a cell, so two inputs of the same shape that agree on all
in-bounds elements produce identical results, for every output buffer
shape, bias and stride. -/
theorem conv_no_out_of_bounds_reads (A B filter_W : Tensor3) (out : Matrix2)
    (fb : ℚ) (s : ℕ × ℕ)
    (hh : B.height = A.height) (hw : B.width = A.width) (hc : B.channel = A.channel)
    (hfc : filter_W.channel = A.channel)
    (hag : ∀ i j k, i < A.height → j < A.width → k < A.channel →
      B.data i j k = A.data i j k) :
    convCore B filter_W out fb s = convCore A filter_W out fb s := by
  obtain ⟨sh, sw⟩ := s
  apply Matrix2.ext2
  · rw [convCore_height, convCore_height]
  · rw [convCore_width, convCore_width]
  · intro a b
    rw [convCore_data, convCore_data, hh, hw]
    by_cases hcnd : a < out.height ∧ b < out.width ∧
        a * sh + filter_W.height ≤ A.height ∧ b * sw + filter_W.width ≤ A.width
    · rw [if_pos hcnd, if_pos hcnd]
      congr 1
      unfold windowSum
      apply Finset.sum_congr rfl
      intro r hr
      apply Finset.sum_congr rfl
      intro c hcc
      apply Finset.sum_congr rfl
      intro ch hch
      rw [hag (a * sh + r) (b * sw + c) ch
        (lt_of_lt_of_le (Nat.add_lt_add_left (Finset.mem_range.mp hr) _) hcnd.2.2.1)
        (lt_of_lt_of_le (Nat.add_lt_add_left (Finset.mem_range.mp hcc) _) hcnd.2.2.2)
        (hfc ▸ Finset.mem_range.mp hch)]
    · rw [if_neg hcnd, if_neg hcnd]

/-- C9 witness: an input carrying junk outside its declared 2x2x1 bounds
correlates to the same result as the clean all-ones input. -/
theorem conv_no_out_of_bounds_reads_witness :
    convCore ⟨2, 2, 1, fun i j k => if i < 2 ∧ j < 2 ∧ k < 1 then 1 else 5⟩
        ⟨1, 1, 1, fun _ _ _ => 1⟩ (zeroBuf 5 5) 3 (1, 1) =
      convCore ⟨2, 2, 1, fun _ _ _ => 1⟩ ⟨1, 1, 1, fun _ _ _ => 1⟩ (zeroBuf 5 5) 3 (1, 1) := by
  exact conv_no_out_of_bounds_reads ⟨2, 2, 1, fun _ _ _ => 1⟩
    ⟨2, 2, 1, fun i j k => if i < 2 ∧ j < 2 ∧ k < 1 then 1 else 5⟩
    ⟨1, 1, 1, fun _ _ _ => 1⟩ (zeroBuf 5 5) 3 (1, 1) rfl rfl rfl rfl
    (fun i j k hi hj hk => by simp only; rw [if_pos ⟨hi, hj, hk⟩])

/-- C10: a cell of the declared output shape is written exactly when its
sliding window fits inside the input bounds; every cell whose window
would overrun the input keeps the previous contents of the
caller-supplied buffer, and the call returns normally with no error. -/
theorem conv_partial_write (inputs filter_W : NDArray) (outputs : Matrix2)
    (filter_b : ℚ) (sh sw : ℕ)
    (hin : inputs.ndim = 2 ∨ inputs.ndim = 3)
    (hfil : filter_W.ndim = 2 ∨ filter_W.ndim = 3) :
    ∃ m, _conv inputs filter_W outputs filter_b (sh, sw) = .ok m ∧
      m.height = outputs.height ∧ m.width = outputs.width ∧
      ∀ a b, m.data a b =
        if a < outputs.height ∧ b < outputs.width ∧
            a * sh + filter_W.promoteIfRank2.toT3.height ≤
              inputs.promoteIfRank2.toT3.height ∧
            b * sw + filter_W.promoteIfRank2.toT3.width ≤
              inputs.promoteIfRank2.toT3.width then
          windowSum inputs.promoteIfRank2.toT3 filter_W.promoteIfRank2.toT3
            (a * sh) (b * sw) + filter_b
        else outputs.data a b := by
  refine ⟨_, ?_, convCore_height _ _ _ _ _, convCore_width _ _ _ _ _,
    fun a b => convCore_data _ _ _ _ _ _ _ _⟩
  unfold _conv
  rw [if_pos hin, if_pos hfil]

/-- C10 witness: with a 2x2x1 input, a 2x2x1 filter and an over-declared
3x3 output buffer prefilled with 7, only the single fitting cell (0, 0)
is written (all-ones data, so it becomes 4); the overrunning cells keep
their previous value 7 and the call still succeeds. -/
theorem conv_partial_write_witness :
    ∃ m, _conv (onesND3 2 2 1) (onesND3 2 2 1) ⟨3, 3, fun _ _ => 7⟩ 0 (1, 1) = .ok m ∧
      m.data 0 0 = 4 ∧ m.data 0 1 = 7 ∧ m.data 2 2 = 7 := by
  obtain ⟨m, hok, -, -, hdata⟩ := conv_partial_write (onesND3 2 2 1) (onesND3 2 2 1)
    ⟨3, 3, fun _ _ => 7⟩ 0 1 1 (Or.inr rfl) (Or.inr rfl)
  refine ⟨m, hok, ?_, ?_, ?_⟩
  · rw [hdata 0 0]
    norm_num [windowSum, Finset.sum_range_succ, onesND3, NDArray.promoteIfRank2,
      NDArray.promote2, NDArray.ndim, NDArray.toT3, zeroBuf]
  · rw [hdata 0 1]
    norm_num [windowSum, Finset.sum_range_succ, onesND3, NDArray.promoteIfRank2,
      NDArray.promote2, NDArray.ndim, NDArray.toT3, zeroBuf]
  · rw [hdata 2 2]
    norm_num [windowSum, Finset.sum_range_succ, onesND3, NDArray.promoteIfRank2,
      NDArray.promote2, NDArray.ndim, NDArray.toT3, zeroBuf]

/-- Rank-1 test array used to exhibit the padding rank-check bypass. -/
def rank1ND : NDArray := ⟨[4], fun _ => 0⟩

/-- C5 counterexample: a rank-1 tensor passed to the padding routine with
padding amounts (0, 0) is returned unchanged instead of raising the
rank error, so the error is not raised regardless of the padding
amounts. -/
theorem padding_rank_check_bypassed :
    rank1ND.ndim = 1 ∧ _padding rank1ND (0, 0) = .ok rank1ND := ⟨rfl, rfl⟩

/-- C5 amended: the padding routine checks the rank only when the
padding amounts are nonzero (with (0, 0) any tensor is returned
unchanged, whatever its rank); for nonzero padding it raises the rank
error exactly for ranks other than 2 and 3; the correlation routine
always raises the rank error for either argument of rank outside
2 and 3, and neither routine raises it for rank-2 or rank-3 tensors. -/
theorem rank_error_behaviour :
    (∀ (x : NDArray) (zp : ℕ × ℕ), x.ndim ≠ 2 → x.ndim ≠ 3 → zp ≠ (0, 0) →
      _padding x zp = .error errInput) ∧
    (∀ x : NDArray, _padding x (0, 0) = .ok x) ∧
    (∀ (x : NDArray) (zp : ℕ × ℕ), x.ndim = 2 ∨ x.ndim = 3 →
      ∃ y, _padding x zp = .ok y) ∧
    (∀ (x f : NDArray) (o : Matrix2) (fb : ℚ) (s : ℕ × ℕ), x.ndim ≠ 2 → x.ndim ≠ 3 →
      _conv x f o fb s = .error errInput) ∧
    (∀ (x f : NDArray) (o : Matrix2) (fb : ℚ) (s : ℕ × ℕ), (x.ndim = 2 ∨ x.ndim = 3) →
      f.ndim ≠ 2 → f.ndim ≠ 3 → _conv x f o fb s = .error errFilter) ∧
    (∀ (x f : NDArray) (o : Matrix2) (fb : ℚ) (s : ℕ × ℕ), (x.ndim = 2 ∨ x.ndim = 3) →
      (f.ndim = 2 ∨ f.ndim = 3) → ∃ m, _conv x f o fb s = .ok m) := by
  refine ⟨?_, ?_, ?_, ?_, ?_, ?_⟩
  · intro x zp h2 h3 h0
    unfold _padding
    rw [if_neg h0, promoteIfRank2_of_ne2 x h2, if_neg h3]
  · intro x
    unfold _padding
    rw [if_pos rfl]
  · intro x zp h23
    by_cases h0 : zp = (0, 0)
    · subst h0
      exact ⟨x, by unfold _padding; rw [if_pos rfl]⟩
    · refine ⟨(pad3 x.promoteIfRank2.toT3 zp).toND, ?_⟩
      unfold _padding
      rcases h23 with h2 | h3
      · rw [if_neg h0, if_pos (by rw [promoteIfRank2_of_rank2 x h2]; exact ndim_promote2 x h2)]
      · rw [if_neg h0, if_pos (by rw [promoteIfRank2_of_ne2 x (by omega)]; exact h3)]
  · intro x f o fb s h2 h3
    unfold _conv
    rw [if_neg]
    rintro (h | h)
    · exact h2 h
    · exact h3 h
  · intro x f o fb s hx h2 h3
    unfold _conv
    rw [if_pos hx, if_neg]
    rintro (h | h)
    · exact h2 h
    · exact h3 h
  · intro x f o fb s hx hf
    refine ⟨convCore x.promoteIfRank2.toT3 f.promoteIfRank2.toT3 o fb s, ?_⟩
    unfold _conv
    rw [if_pos hx, if_pos hf]

/-- C5 amended witness: concrete instances of the amended behaviour, a
rank-1 tensor raising on nonzero padding and raising in the correlation
routine, and rank-2 / rank-3 tensors never raising. -/
theorem rank_error_behaviour_witness :
    _padding rank1ND (1, 1) = .error errInput ∧
    _conv rank1ND rank1ND (zeroBuf 1 1) 0 (1, 1) = .error errInput ∧
    _conv (onesND3 2 2 1) rank1ND (zeroBuf 1 1) 0 (1, 1) = .error errFilter ∧
    (∃ y, _padding rank1ND (0, 0) = .ok y) ∧
    (∃ m, _conv (onesND3 2 2 1) (onesND3 1 1 1) (zeroBuf 2 2) 0 (1, 1) = .ok m) := by
  refine ⟨rank_error_behaviour.1 rank1ND (1, 1) (by decide) (by decide) (by decide),
    rank_error_behaviour.2.2.2.1 rank1ND rank1ND (zeroBuf 1 1) 0 (1, 1)
      (by decide) (by decide),
    rank_error_behaviour.2.2.2.2.1 (onesND3 2 2 1) rank1ND (zeroBuf 1 1) 0 (1, 1)
      (Or.inr rfl) (by decide) (by decide),
    ⟨rank1ND, rank_error_behaviour.2.1 rank1ND⟩,
    rank_error_behaviour.2.2.2.2.2 (onesND3 2 2 1) (onesND3 1 1 1) (zeroBuf 2 2) 0 (1, 1)
      (Or.inr rfl) (Or.inr rfl)⟩

/-- C7: the expansion routine places every cell of the map at its strided
coordinate, fills every other cell with zero, and with stride (1, 1) is
the identity on the map. -/
theorem expand_characterisation (m : Tensor3) (sh sw : ℕ)
    (hs1 : 1 ≤ sh) (hs2 : 1 ≤ sw) (hh : 1 ≤ m.height) (hw : 1 ≤ m.width) :
    (expandSensitiveMap m (sh, sw)).height = (m.height - 1) * sh + 1 ∧
    (expandSensitiveMap m (sh, sw)).width = (m.width - 1) * sw + 1 ∧
    (expandSensitiveMap m (sh, sw)).channel = m.channel ∧
    (∀ i j k, i < m.height → j < m.width →
      (expandSensitiveMap m (sh, sw)).data (sh * i) (sw * j) k = m.data i j k) ∧
    (∀ a b k, (∀ i j, i < m.height → j < m.width → ¬(a = sh * i ∧ b = sw * j)) →
      (expandSensitiveMap m (sh, sw)).data a b k = 0) ∧
    (expandSensitiveMap m (1, 1)).height = m.height ∧
    (expandSensitiveMap m (1, 1)).width = m.width ∧
    (expandSensitiveMap m (1, 1)).channel = m.channel ∧
    (∀ a b k, a < m.height → b < m.width →
      (expandSensitiveMap m (1, 1)).data a b k = m.data a b k) := by
  refine ⟨expand_height m (sh, sw) hh, expand_width m (sh, sw) hw, expand_channel m (sh, sw),
    fun i j k hi hj => expand_data_write m (sh, sw) hs1 hs2 i j k hi hj,
    fun a b k h => expand_data_zero m (sh, sw) a b k h, ?_, ?_, expand_channel m (1, 1), ?_⟩
  · rw [expand_height m (1, 1) hh]
    simp only [mul_one]
    omega
  · rw [expand_width m (1, 1) hw]
    simp only [mul_one]
    omega
  · intro a b k hab hbb
    have h := expand_data_write m (1, 1) (le_refl 1) (le_refl 1) a b k hab hbb
    simpa using h

/-- C7 witness: the expansion of a concrete 2x2x1 map with stride (2, 3),
and the stride (1, 1) identity on it. -/
theorem expand_characterisation_witness :
    (expandSensitiveMap ⟨2, 2, 1, fun i j _ => (i * 10 + j : ℚ)⟩ (2, 3)).height = 3 ∧
    (expandSensitiveMap ⟨2, 2, 1, fun i j _ => (i * 10 + j : ℚ)⟩ (2, 3)).data 2 3 0 = 11 ∧
    (expandSensitiveMap ⟨2, 2, 1, fun i j _ => (i * 10 + j : ℚ)⟩ (2, 3)).data 1 0 0 = 0 ∧
    (expandSensitiveMap ⟨2, 2, 1, fun i j _ => (i * 10 + j : ℚ)⟩ (1, 1)).data 1 1 0 = 11 := by
  obtain ⟨hhght, -, -, hwrite, hzero, -, -, -, hid⟩ :=
    expand_characterisation ⟨2, 2, 1, fun i j _ => (i * 10 + j : ℚ)⟩ 2 3
      (by decide) (by decide) (by decide) (by decide)
  refine ⟨by rw [hhght]; rfl, ?_, ?_, ?_⟩
  · have h := hwrite 1 1 0 (by decide) (by decide)
    norm_num at h
    exact h
  · rw [hzero 1 0 0]
    intro i j hi hj h
    omega
  · have h := hid 1 1 0 (by decide) (by decide)
    norm_num at h
    exact h

/-- Concrete sensitivity map for the backward-padding counterexample. -/
def c3Pre : Tensor3 := ⟨2, 2, 1, fun _ _ _ => 1⟩

/-- C3 counterexample: for the valid geometry input length 5, filter
length 2, stride 2, no forward padding, the output length is 2 and the
expanded sensitivity map has height 3; the equation
3 + 2 * p - 2 + 1 = 5 has no integer solution, so the claim requires a
computed padding of 0, yet backward computes 1. -/
theorem backward_padding_odd_case :
    calcOutputSize 5 2 2 0 = 2 ∧ c3Pre.height = calcOutputSize 5 2 2 0 ∧
    (expandSensitiveMap c3Pre (2, 2)).height = 3 ∧
    (∀ p : ℕ, ¬(3 + 2 * p + 1 = 5 + 2)) ∧
    backwardPadCompute 5 2 3 = 1 := by
  refine ⟨rfl, rfl, ?_, fun p h => by omega, by decide⟩
  rw [expand_height c3Pre (2, 2) (by decide)]
  rfl

/-- C3 amended: the padding computed in backward equals
max(0, floor((input_len + filter_len - expanded_len - 1) / 2)): it is
the exact solution of expanded + 2 * pad - filter + 1 = input whenever a
non-negative integer solution exists, it is clamped to zero when the
exact solution would be negative, and when the difference is odd the
floor is taken (the padding is rounded down, not clamped to zero). -/
theorem backward_padding_formula (input_len filter_len expanded_len : ℕ) :
    backwardPadCompute input_len filter_len expanded_len =
      (input_len + filter_len - (expanded_len + 1)) / 2 ∧
    (∀ p : ℕ, expanded_len + 2 * p + 1 = input_len + filter_len →
      backwardPadCompute input_len filter_len expanded_len = p) ∧
    (input_len + filter_len ≤ expanded_len + 1 →
      backwardPadCompute input_len filter_len expanded_len = 0) := by
  have h1 : backwardPadCompute input_len filter_len expanded_len =
      (input_len + filter_len - (expanded_len + 1)) / 2 := by
    unfold backwardPadCompute
    rw [Int.fdiv_eq_ediv _ (by norm_num)]
    omega
  refine ⟨h1, fun p hp => by omega, fun hle => by omega⟩

/-- C3 amended witness: with input 6, filter 2, expanded 3 the equation
3 + 2 * 2 + 1 = 6 + 2 has the exact solution 2, and backward computes
exactly 2; with expanded 10 the exact solution would be negative and the
computed padding clamps to 0. -/
theorem backward_padding_formula_witness :
    backwardPadCompute 6 2 3 = 2 ∧ backwardPadCompute 5 2 10 = 0 := by
  constructor
  · exact (backward_padding_formula 6 2 3).2.1 2 (by norm_num)
  · exact (backward_padding_formula 5 2 10).2.2 (by norm_num)

/-- C6: padding with (0, 0) returns the tensor unchanged; for nonzero
padding amounts the result of padding a rank-3 (or rank-2, promoted to
single-channel) tensor has shape [H + 2 pad_h, W + 2 pad_w, C], its
central sub-tensor equals the input and every border cell is zero. -/
theorem padding_roundtrip :
    (∀ x : NDArray, _padding x (0, 0) = .ok x) ∧
    (∀ (x : NDArray) (H W C ph pw : ℕ), x.shape = [H, W, C] →
      (ph, pw) ≠ ((0 : ℕ), (0 : ℕ)) →
      ∃ y, _padding x (ph, pw) = .ok y ∧
        y.shape = [H + 2 * ph, W + 2 * pw, C] ∧
        (∀ i j k, i < H → j < W → k < C → y.data [ph + i, pw + j, k] = x.data [i, j, k]) ∧
        (∀ i j k, (i < ph ∨ H + ph ≤ i ∨ j < pw ∨ W + pw ≤ j) → y.data [i, j, k] = 0)) ∧
    (∀ (x : NDArray) (H W ph pw : ℕ), x.shape = [H, W] →
      (ph, pw) ≠ ((0 : ℕ), (0 : ℕ)) →
      ∃ y, _padding x (ph, pw) = .ok y ∧
        y.shape = [H + 2 * ph, W + 2 * pw, 1] ∧
        (∀ i j, i < H → j < W → y.data [ph + i, pw + j, 0] = x.data [i, j]) ∧
        (∀ i j k, (i < ph ∨ H + ph ≤ i ∨ j < pw ∨ W + pw ≤ j) → y.data [i, j, k] = 0)) := by
  refine ⟨?_, ?_, ?_⟩
  · intro x
    unfold _padding
    rw [if_pos rfl]
  · rintro ⟨shp, dat⟩ H W C ph pw hx h0
    simp only at hx
    subst hx
    refine ⟨(pad3 (NDArray.promoteIfRank2 ⟨[H, W, C], dat⟩).toT3 (ph, pw)).toND,
      ?_, ?_, ?_, ?_⟩
    · unfold _padding
      rw [if_neg h0]
      rfl
    · rfl
    · intro i j k hi hj hk
      show (pad3 _ _).data (ph + i) (pw + j) k = dat [i, j, k]
      unfold pad3
      simp only
      rw [if_pos ⟨by omega,
        by simp [NDArray.toT3, NDArray.promoteIfRank2, NDArray.ndim]; omega, by omega,
        by simp [NDArray.toT3, NDArray.promoteIfRank2, NDArray.ndim]; omega⟩]
      simp [NDArray.toT3, NDArray.promoteIfRank2, NDArray.ndim]
    · intro i j k hborder
      show (pad3 _ _).data i j k = 0
      unfold pad3
      simp only
      rw [if_neg]
      simp only [NDArray.toT3, NDArray.promoteIfRank2, NDArray.ndim]
      rintro ⟨hb1, hb2, hb3, hb4⟩
      simp only [List.getD] at hb2 hb4
      rcases hborder with h | h | h | h
      · omega
      · simp at hb2
        omega
      · omega
      · simp at hb4
        omega
  · rintro ⟨shp, dat⟩ H W ph pw hx h0
    simp only at hx
    subst hx
    refine ⟨(pad3 (NDArray.promoteIfRank2 ⟨[H, W], dat⟩).toT3 (ph, pw)).toND,
      ?_, ?_, ?_, ?_⟩
    · unfold _padding
      rw [if_neg h0]
      rfl
    · rfl
    · intro i j hi hj
      show (pad3 _ _).data (ph + i) (pw + j) 0 = dat [i, j]
      unfold pad3
      simp only
      rw [if_pos ⟨by omega, by simp [NDArray.toT3, NDArray.promoteIfRank2,
        NDArray.ndim, NDArray.promote2]; omega, by omega,
        by simp [NDArray.toT3, NDArray.promoteIfRank2, NDArray.ndim, NDArray.promote2]; omega⟩]
      simp [NDArray.toT3, NDArray.promoteIfRank2, NDArray.ndim, NDArray.promote2]
    · intro i j k hborder
      show (pad3 _ _).data i j k = 0
      unfold pad3
      simp only
      rw [if_neg]
      simp only [NDArray.toT3, NDArray.promoteIfRank2, NDArray.ndim, NDArray.promote2]
      rintro ⟨hb1, hb2, hb3, hb4⟩
      simp only [List.getD] at hb2 hb4
      rcases hborder with h | h | h | h
      · omega
      · simp at hb2
        omega
      · omega
      · simp at hb4
        omega

/-- C6 witness: padding a concrete 1x1x1 tensor by (1, 0) yields shape
[3, 1, 1] with the original value centred and zero borders, and padding
by (0, 0) returns it unchanged. -/
theorem padding_roundtrip_witness :
    _padding (onesND3 1 1 1) (0, 0) = .ok (onesND3 1 1 1) ∧
    ∃ y, _padding (onesND3 1 1 1) ((1 : ℕ), (0 : ℕ)) = .ok y ∧
      y.shape = [3, 1, 1] ∧ y.data [1, 0, 0] = 1 ∧ y.data [0, 0, 0] = 0 := by
  refine ⟨padding_roundtrip.1 (onesND3 1 1 1), ?_⟩
  obtain ⟨y, hok, hsh, hcentre, hborder⟩ :=
    padding_roundtrip.2.1 (onesND3 1 1 1) 1 1 1 1 0 rfl (by decide)
  refine ⟨y, hok, by simpa using hsh, ?_, ?_⟩
  · have h := hcentre 0 0 0 (by decide) (by decide) (by decide)
    simpa [onesND3] using h
  · exact hborder 0 0 0 (by omega)

/-- C8: update scales each filter's stored gradients by the learning
rate and subtracts them from the weights and bias in place, so each
weight changes by exactly minus the learning rate times its stored
gradient, and with a positive learning rate a weight whose stored
gradient is positive strictly decreases. -/
theorem update_gradient_step (L : ConvLayer) (k : ℕ) (hk : k < L.filters.length) :
    ((L.update).filters.getD k dummyFilter).b =
      (L.filters.getD k dummyFilter).b - (L.filters.getD k dummyFilter).delta_b * L.lr ∧
    ((L.update).filters.getD k dummyFilter).delta_b =
      (L.filters.getD k dummyFilter).delta_b * L.lr ∧
    (∀ i j c, ((L.update).filters.getD k dummyFilter).W.data i j c =
      (L.filters.getD k dummyFilter).W.data i j c -
        (L.filters.getD k dummyFilter).delta_W.data i j c * L.lr) ∧
    (∀ i j c, ((L.update).filters.getD k dummyFilter).delta_W.data i j c =
      (L.filters.getD k dummyFilter).delta_W.data i j c * L.lr) ∧
    (0 < L.lr → ∀ i j c, 0 < (L.filters.getD k dummyFilter).delta_W.data i j c →
      ((L.update).filters.getD k dummyFilter).W.data i j c <
        (L.filters.getD k dummyFilter).W.data i j c) := by
  have hmap : (L.update).filters.getD k dummyFilter =
      Filter.update { L.filters.getD k dummyFilter with
        delta_W := ⟨(L.filters.getD k dummyFilter).delta_W.height,
          (L.filters.getD k dummyFilter).delta_W.width,
          (L.filters.getD k dummyFilter).delta_W.channel,
          fun i j c => (L.filters.getD k dummyFilter).delta_W.data i j c * L.lr⟩,
        delta_b := (L.filters.getD k dummyFilter).delta_b * L.lr } :=
    getD_map_of_lt _ L.filters dummyFilter dummyFilter k hk
  rw [hmap]
  refine ⟨rfl, rfl, fun i j c => rfl, fun i j c => rfl, fun hlr i j c hpos => ?_⟩
  show (L.filters.getD k dummyFilter).W.data i j c -
      (L.filters.getD k dummyFilter).delta_W.data i j c * L.lr <
    (L.filters.getD k dummyFilter).W.data i j c
  have : 0 < (L.filters.getD k dummyFilter).delta_W.data i j c * L.lr := mul_pos hpos hlr
  linarith

/-- Concrete one-filter layer used by the update witness. -/
def updLayer : ConvLayer :=
  { mkConvLayer 1 1 1 1 1 1 (0, 0) (1, 1) ⟨fun x => x, fun _ => 1⟩ (fun _ _ _ _ _ _ => 1) 1 with
    filters := [⟨1, 1, 1, ⟨1, 1, 1, fun _ _ _ => 3⟩, 5, ⟨1, 1, 1, fun _ _ _ => 2⟩, 4⟩],
    lr := 1 / 2 }

/-- C8 witness: on the concrete layer with weight 3, stored weight
gradient 2, bias 5, stored bias gradient 4 and learning rate 1/2, update
produces weight 2 < 3 and bias 3. -/
theorem update_gradient_step_witness :
    ((updLayer.update).filters.getD 0 dummyFilter).W.data 0 0 0 = 2 ∧
    ((updLayer.update).filters.getD 0 dummyFilter).W.data 0 0 0 <
      (updLayer.filters.getD 0 dummyFilter).W.data 0 0 0 ∧
    ((updLayer.update).filters.getD 0 dummyFilter).b = 3 := by
  obtain ⟨hb, -, hW, -, hlt⟩ := update_gradient_step updLayer 0 (by decide)
  refine ⟨?_, ?_, ?_⟩
  · rw [hW 0 0 0]
    norm_num [updLayer]
  · exact hlt (by norm_num [updLayer]) 0 0 0 (by norm_num [updLayer])
  · rw [hb]
    norm_num [updLayer]

/-- Identity-like activator used for the concrete layers below. -/
def idActivator : Activator := ⟨fun x => x, fun _ => 1⟩

/-- All-ones initializer. -/
def onesInit : ℕ → ℕ → ℕ → ℕ → ℕ → ℕ → ℚ := fun _ _ _ _ _ _ => 1

/-- A valid non-square layer: 3x2x1 input, one 2x2 filter, stride 1,
no padding. -/
def bugLayer : ConvLayer := mkConvLayer 3 2 1 2 2 1 (0, 0) (1, 1) idActivator onesInit 1

/-- The matching 3x2x1 input. -/
def bugInput : Tensor3 := ⟨3, 2, 1, fun _ _ _ => 1⟩

/-- A sensitivity map of the contracted output shape 2x1x1. -/
def bugPre : Tensor3 := ⟨2, 1, 1, fun _ _ _ => 1⟩

/-- C1 (code bug): on the valid non-square geometry 3x2x1 the
constructor allocates the layer's delta buffer with shape
[input_width, input_height, input_channel] = [2, 3, 1] instead of the
specified [input_height, input_width, input_channel] = [3, 2, 1], and a
forward-then-backward call sequence fails with the numpy broadcast
error when backward tries to accumulate the [3, 2, 1] per-filter input
gradient into the transposed buffer, returning no tensor at all. -/
theorem delta_buffer_shape_transposed :
    bugLayer.input_height = 3 ∧ bugLayer.input_width = 2 ∧ bugLayer.input_channel = 1 ∧
    bugLayer.output_height = 2 ∧ bugLayer.output_width = 1 ∧
    bugLayer.delta.height = 2 ∧ bugLayer.delta.width = 3 ∧ bugLayer.delta.channel = 1 ∧
    (bugLayer.forward bugInput).backward bugPre = .error errBroadcast := by
  exact ⟨rfl, rfl, rfl, rfl, rfl, rfl, rfl, rfl, rfl⟩

/-! ### Characterisation of the backward loops -/

lemma writeChannel_height (t : Tensor3) (k : ℕ) (m : Matrix2) :
    (t.writeChannel k m).height = t.height := rfl

lemma channelLoop_fst_height (pdi : Matrix2) (rw pi : Tensor3) (exi : Matrix2) :
    ∀ (n i0 : ℕ) (s : Tensor3 × Tensor3),
      (channelLoop pdi rw pi exi n i0 s).1.height = s.1.height := by
  intro n
  induction n with
  | zero => intro i0 s; rfl
  | succ n IH => intro i0 s; simp only [channelLoop]; rw [IH]; rfl

lemma channelLoop_fst_width (pdi : Matrix2) (rw pi : Tensor3) (exi : Matrix2) :
    ∀ (n i0 : ℕ) (s : Tensor3 × Tensor3),
      (channelLoop pdi rw pi exi n i0 s).1.width = s.1.width := by
  intro n
  induction n with
  | zero => intro i0 s; rfl
  | succ n IH => intro i0 s; simp only [channelLoop]; rw [IH]; rfl

lemma channelLoop_fst_channel (pdi : Matrix2) (rw pi : Tensor3) (exi : Matrix2) :
    ∀ (n i0 : ℕ) (s : Tensor3 × Tensor3),
      (channelLoop pdi rw pi exi n i0 s).1.channel = s.1.channel := by
  intro n
  induction n with
  | zero => intro i0 s; rfl
  | succ n IH => intro i0 s; simp only [channelLoop]; rw [IH]; rfl

lemma channelLoop_snd_height (pdi : Matrix2) (rw pi : Tensor3) (exi : Matrix2) :
    ∀ (n i0 : ℕ) (s : Tensor3 × Tensor3),
      (channelLoop pdi rw pi exi n i0 s).2.height = s.2.height := by
  intro n
  induction n with
  | zero => intro i0 s; rfl
  | succ n IH => intro i0 s; simp only [channelLoop]; rw [IH]; rfl

lemma channelLoop_snd_width (pdi : Matrix2) (rw pi : Tensor3) (exi : Matrix2) :
    ∀ (n i0 : ℕ) (s : Tensor3 × Tensor3),
      (channelLoop pdi rw pi exi n i0 s).2.width = s.2.width := by
  intro n
  induction n with
  | zero => intro i0 s; rfl
  | succ n IH => intro i0 s; simp only [channelLoop]; rw [IH]; rfl

/-- The delta_W component written by the channel loop: each channel c in
range is overwritten by the correlation of the padded-input slice c with
the expanded-delta slice, computed on the buffer contents present when
channel c is reached (the loop touches each channel exactly once, so
that is the original buffer slice). -/
lemma channelLoop_snd_data (pdi : Matrix2) (rw pi : Tensor3) (exi : Matrix2) :
    ∀ (n i0 : ℕ) (s : Tensor3 × Tensor3) (i j c : ℕ),
      (channelLoop pdi rw pi exi n i0 s).2.data i j c =
      if i0 ≤ c ∧ c < i0 + n then
        (convCore (pi.sliceChannel c).promote exi.promote (s.2.sliceChannel c) 0 (1, 1)).data i j
      else s.2.data i j c := by
  intro n
  induction n with
  | zero =>
    intro i0 s i j c
    simp only [channelLoop]
    rw [if_neg]
    rintro ⟨h1, h2⟩
    omega
  | succ n IH =>
    intro i0 s i j c
    simp only [channelLoop]
    rw [IH]
    by_cases hc : c = i0
    · subst hc
      rw [if_neg (fun h => by omega), if_pos ⟨le_refl c, by omega⟩]
      simp [Tensor3.writeChannel, Tensor3.sliceChannel]
    · by_cases hin : i0 + 1 ≤ c ∧ c < i0 + 1 + n
      · rw [if_pos hin, if_pos ⟨by omega, by omega⟩]
        have hslice : ((s.2.writeChannel i0
            (convCore (pi.sliceChannel i0).promote exi.promote (s.2.sliceChannel i0) 0
              (1, 1))).sliceChannel c) = s.2.sliceChannel c := by
          apply Matrix2.ext2
          · rfl
          · rfl
          · intro a b
            simp only [Tensor3.writeChannel, Tensor3.sliceChannel]
            rw [if_neg hc]
        rw [hslice]
      · rw [if_neg hin, if_neg (fun h => hin ⟨by omega, by omega⟩)]
        simp only [Tensor3.writeChannel]
        rw [if_neg hc]

/-- addInPlace succeeds on equal shapes. -/
lemma addInPlace_ok (b a : Tensor3) (hh : b.height = a.height) (hw : b.width = a.width)
    (hc : b.channel = a.channel) :
    addInPlace b a =
      .ok ⟨b.height, b.width, b.channel, fun i j k => b.data i j k + a.data i j k⟩ := by
  unfold addInPlace
  rw [if_pos ⟨hh, hw, hc⟩]

/-- mulInPlace succeeds on equal shapes. -/
lemma mulInPlace_ok (b a : Tensor3) (hh : b.height = a.height) (hw : b.width = a.width)
    (hc : b.channel = a.channel) :
    mulInPlace b a =
      .ok ⟨b.height, b.width, b.channel, fun i j k => b.data i j k * a.data i j k⟩ := by
  unfold mulInPlace
  rw [if_pos ⟨hh, hw, hc⟩]

/-- The filter loop of backward: it succeeds whenever the delta buffer
has the per-filter gradient shape, returns the accumulated buffer
(original contents plus the sum of all per-filter contributions) and the
per-filter states with delta_W and delta_b overwritten. -/
lemma backwardFilters_ok (pd ex pi : Tensor3) (H W C : ℕ) :
    ∀ (fs : List Filter) (i : ℕ) (delta : Tensor3),
      delta.height = H → delta.width = W → delta.channel = C →
      ∃ fs2 d, backwardFilters pd ex pi H W C fs i delta = .ok (fs2, d) ∧
        fs2.length = fs.length ∧
        d.height = H ∧ d.width = W ∧ d.channel = C ∧
        (∀ a b c, d.data a b c = delta.data a b c +
          ∑ t ∈ Finset.range fs.length,
            (channelLoop (pd.sliceChannel (i + t)) (rotWeights (fs.getD t dummyFilter).W) pi
              (ex.sliceChannel (i + t)) C 0
              (Tensor3.zeros H W C, (fs.getD t dummyFilter).delta_W)).1.data a b c) ∧
        (∀ t, t < fs.length → fs2.getD t dummyFilter =
          { fs.getD t dummyFilter with
            delta_W := (channelLoop (pd.sliceChannel (i + t))
              (rotWeights (fs.getD t dummyFilter).W) pi (ex.sliceChannel (i + t)) C 0
              (Tensor3.zeros H W C, (fs.getD t dummyFilter).delta_W)).2,
            delta_b := (ex.sliceChannel (i + t)).sumAll }) := by
  intro fs
  induction fs with
  | nil =>
    intro i delta hh hw hc
    exact ⟨[], delta, rfl, rfl, hh, hw, hc, fun a b c => by simp, fun t ht => by simp at ht⟩
  | cons f fs IH =>
    intro i delta hh hw hc
    have hadd := addInPlace_ok delta
      (channelLoop (pd.sliceChannel i) (rotWeights f.W) pi (ex.sliceChannel i) C 0
        (Tensor3.zeros H W C, f.delta_W)).1
      (by rw [hh, channelLoop_fst_height]; rfl)
      (by rw [hw, channelLoop_fst_width]; rfl)
      (by rw [hc, channelLoop_fst_channel]; rfl)
    obtain ⟨fs2, d, hok, hlen, hdh, hdw, hdc, hdata, hfil⟩ := IH (i + 1)
      ⟨delta.height, delta.width, delta.channel, fun a b c => delta.data a b c +
        (channelLoop (pd.sliceChannel i) (rotWeights f.W) pi (ex.sliceChannel i) C 0
          (Tensor3.zeros H W C, f.delta_W)).1.data a b c⟩ hh hw hc
    refine ⟨{ f with
        delta_W := (channelLoop (pd.sliceChannel i) (rotWeights f.W) pi (ex.sliceChannel i)
          C 0 (Tensor3.zeros H W C, f.delta_W)).2,
        delta_b := (ex.sliceChannel i).sumAll } :: fs2, d, ?_, by simpa using hlen,
      hdh, hdw, hdc, ?_, ?_⟩
    · simp only [backwardFilters]
      rw [hadd]
      dsimp only
      rw [hok]
    · intro a b c
      rw [hdata a b c]
      simp only [List.length_cons]
      rw [Finset.sum_range_succ']
      simp only [List.getD_cons_succ, List.getD_cons_zero, Nat.add_zero]
      rw [add_assoc]
      congr 1
      rw [add_comm]
      congr 1
      apply Finset.sum_congr rfl
      intro t ht
      rw [show i + 1 + t = i + (t + 1) by omega]
    · intro t ht
      cases t with
      | zero =>
        simp only [List.getD_cons_zero, Nat.add_zero]
      | succ t =>
        simp only [List.getD_cons_succ]
        rw [hfil t (by simpa using ht), show i + 1 + t = i + (t + 1) by omega]

/-- The expanded sensitivity map computed at the top of backward. -/
def backwardExpanded (L : ConvLayer) (pre : Tensor3) : Tensor3 :=
  expandSensitiveMap pre L.stride

/-- The padded expanded sensitivity map computed in backward. -/
def backwardPadded (L : ConvLayer) (pre : Tensor3) : Tensor3 :=
  paddingCore (backwardExpanded L pre)
    (backwardPadCompute L.input_height L.filter_height (backwardExpanded L pre).height,
     backwardPadCompute L.input_width L.filter_width (backwardExpanded L pre).width)

/-- The pair (delta_a, new delta_W) produced by the channel loop of
backward for filter t. -/
def backwardDeltaA (L : ConvLayer) (pre : Tensor3) (t : ℕ) : Tensor3 × Tensor3 :=
  channelLoop ((backwardPadded L pre).sliceChannel t)
    (rotWeights (L.filters.getD t dummyFilter).W) L.padded_input
    ((backwardExpanded L pre).sliceChannel t) L.input_channel 0
    (Tensor3.zeros L.input_height L.input_width L.input_channel,
     (L.filters.getD t dummyFilter).delta_W)

lemma getD_mem_of_lt {α : Type} (l : List α) (d : α) :
    ∀ k, k < l.length → l.getD k d ∈ l := by
  induction l with
  | nil => intro k hk; exact absurd hk (by simp)
  | cons x xs IH =>
    intro k hk
    cases k with
    | zero => exact List.mem_cons_self x xs
    | succ k => exact List.mem_cons_of_mem x (IH k (by simpa using hk))

/-- C2: backward never resets the layer's input-gradient buffer: each
call adds the freshly computed per-filter contributions into whatever
the buffer already holds (so consecutive calls accumulate in it, up to
the final elementwise activator-derivative factor), while every
filter's delta_W and delta_b are overwritten with the freshly computed
gradients, independent of their previous contents; the filter weights
and biases are untouched.  The hypotheses state the geometry invariants
a constructed layer has after a forward pass, plus the delta-buffer
shape needed for the in-place accumulation to be accepted (because of
the transposed allocation this holds exactly for square inputs). -/
theorem backward_gradient_buffers (L : ConvLayer) (pre : Tensor3)
    (hdeltah : L.delta.height = L.input_height) (hdeltaw : L.delta.width = L.input_width)
    (hdeltac : L.delta.channel = L.input_channel)
    (hinh : L.input.height = L.input_height) (hinw : L.input.width = L.input_width)
    (hinc : L.input.channel = L.input_channel)
    (hpreh : pre.height = L.output_height) (hprew : pre.width = L.output_width)
    (hoh : L.output_height =
      calcOutputSize L.input_height L.filter_height L.stride.1 L.zero_padding.1)
    (how : L.output_width =
      calcOutputSize L.input_width L.filter_width L.stride.2 L.zero_padding.2)
    (hfh : L.filter_height ≤ L.input_height + 2 * L.zero_padding.1)
    (hfw : L.filter_width ≤ L.input_width + 2 * L.zero_padding.2)
    (hpadh : L.padded_input.height = L.input_height + 2 * L.zero_padding.1)
    (hpadw : L.padded_input.width = L.input_width + 2 * L.zero_padding.2)
    (hfilW : ∀ f ∈ L.filters, f.delta_W.height = L.filter_height ∧
      f.delta_W.width = L.filter_width ∧ f.delta_W.channel = L.input_channel) :
    ∃ L2, L.backward pre = .ok L2 ∧
      L2.filters.length = L.filters.length ∧
      (∀ a b c, L2.delta.data a b c =
        (L.delta.data a b c + ∑ t ∈ Finset.range L.filters.length,
          (backwardDeltaA L pre t).1.data a b c) *
          L.activator.backward (L.input.data a b c)) ∧
      (∀ t, t < L.filters.length → (L2.filters.getD t dummyFilter).delta_b =
        ((backwardExpanded L pre).sliceChannel t).sumAll) ∧
      (∀ t, t < L.filters.length → (L2.filters.getD t dummyFilter).delta_W =
        (backwardDeltaA L pre t).2) ∧
      (∀ t, t < L.filters.length → ∀ i j c, i < L.filter_height → j < L.filter_width →
        c < L.input_channel → (L2.filters.getD t dummyFilter).delta_W.data i j c =
          windowSum (L.padded_input.sliceChannel c).promote
            ((backwardExpanded L pre).sliceChannel t).promote i j) ∧
      (∀ t, t < L.filters.length →
        (L2.filters.getD t dummyFilter).W = (L.filters.getD t dummyFilter).W ∧
        (L2.filters.getD t dummyFilter).b = (L.filters.getD t dummyFilter).b) := by
  obtain ⟨fs2, d, hok, hlen, hdh, hdw, hdc, hdata, hfil⟩ :=
    backwardFilters_ok (backwardPadded L pre) (backwardExpanded L pre) L.padded_input
      L.input_height L.input_width L.input_channel L.filters 0 L.delta
      hdeltah hdeltaw hdeltac
  simp only [Nat.zero_add] at hdata hfil
  have hback : L.backward pre = .ok
      { L with
        filters := fs2,
        delta := ⟨d.height, d.width, d.channel, fun a b c =>
          d.data a b c * (L.activator.backwardT L.input).data a b c⟩ } := by
    unfold backwardPadded backwardExpanded at hok
    simp only [ConvLayer.backward]
    rw [hok]
    dsimp only
    rw [mulInPlace_ok d (L.activator.backwardT L.input) (by rw [hdh]; exact hinh.symm)
      (by rw [hdw]; exact hinw.symm) (by rw [hdc]; exact hinc.symm)]
  have hEh : (backwardExpanded L pre).height =
      (L.input_height + 2 * L.zero_padding.1 - L.filter_height) / L.stride.1 *
        L.stride.1 + 1 := by
    unfold backwardExpanded
    rw [expand_height pre L.stride
      (by rw [hpreh, hoh]; exact Nat.succ_le_succ (Nat.zero_le _))]
    rw [hpreh, hoh]
    unfold calcOutputSize
    rw [Nat.add_sub_cancel]
  have hEw : (backwardExpanded L pre).width =
      (L.input_width + 2 * L.zero_padding.2 - L.filter_width) / L.stride.2 *
        L.stride.2 + 1 := by
    unfold backwardExpanded
    rw [expand_width pre L.stride
      (by rw [hprew, how]; exact Nat.succ_le_succ (Nat.zero_le _))]
    rw [hprew, how]
    unfold calcOutputSize
    rw [Nat.add_sub_cancel]
  have hfith : ∀ i2, i2 < L.filter_height →
      i2 * 1 + (backwardExpanded L pre).height ≤ L.padded_input.height := by
    intro i2 hi2
    have hq := Nat.div_mul_le_self
      (L.input_height + 2 * L.zero_padding.1 - L.filter_height) L.stride.1
    rw [hEh, hpadh]
    omega
  have hfitw : ∀ j2, j2 < L.filter_width →
      j2 * 1 + (backwardExpanded L pre).width ≤ L.padded_input.width := by
    intro j2 hj2
    have hq := Nat.div_mul_le_self
      (L.input_width + 2 * L.zero_padding.2 - L.filter_width) L.stride.2
    rw [hEw, hpadw]
    omega
  have hdWeq : ∀ t, t < L.filters.length → (fs2.getD t dummyFilter).delta_W =
      (backwardDeltaA L pre t).2 := by
    intro t ht
    rw [hfil t ht]
    rfl
  refine ⟨_, hback, by simpa using hlen, ?_, ?_, ?_, ?_, ?_⟩
  · intro a b c
    show d.data a b c * (L.activator.backwardT L.input).data a b c = _
    rw [hdata a b c]
    rfl
  · intro t ht
    show (fs2.getD t dummyFilter).delta_b = _
    rw [hfil t ht]
  · intro t ht
    show (fs2.getD t dummyFilter).delta_W = _
    exact hdWeq t ht
  · intro t ht i j c hi hj hcc
    show (fs2.getD t dummyFilter).delta_W.data i j c = _
    rw [hdWeq t ht]
    unfold backwardDeltaA
    rw [channelLoop_snd_data]
    rw [if_pos ⟨Nat.zero_le c, by omega⟩]
    rw [convCore_data]
    obtain ⟨hWh, hWw, hWc⟩ := hfilW (L.filters.getD t dummyFilter)
      (getD_mem_of_lt L.filters dummyFilter t ht)
    have hc1 : i < ((L.filters.getD t dummyFilter).delta_W.sliceChannel c).height := by
      show i < (L.filters.getD t dummyFilter).delta_W.height
      omega
    have hc2 : j < ((L.filters.getD t dummyFilter).delta_W.sliceChannel c).width := by
      show j < (L.filters.getD t dummyFilter).delta_W.width
      omega
    have hc3 : i * 1 + (((backwardExpanded L pre).sliceChannel t).promote).height ≤
        ((L.padded_input.sliceChannel c).promote).height := by
      show i * 1 + (backwardExpanded L pre).height ≤ L.padded_input.height
      exact hfith i hi
    have hc4 : j * 1 + (((backwardExpanded L pre).sliceChannel t).promote).width ≤
        ((L.padded_input.sliceChannel c).promote).width := by
      show j * 1 + (backwardExpanded L pre).width ≤ L.padded_input.width
      exact hfitw j hj
    rw [if_pos ⟨hc1, hc2, hc3, hc4⟩, mul_one, mul_one, add_zero]
  · intro t ht
    constructor
    · show (fs2.getD t dummyFilter).W = _
      rw [hfil t ht]
    · show (fs2.getD t dummyFilter).b = _
      rw [hfil t ht]

/-- A concrete square layer in its post-forward state: 2x2x1 input, one
1x1 filter, stride 1, no padding, all-ones input. -/
def c2Layer : ConvLayer :=
  { mkConvLayer 2 2 1 1 1 1 (0, 0) (1, 1) idActivator onesInit 1 with
    input := ⟨2, 2, 1, fun _ _ _ => 1⟩,
    padded_input := ⟨2, 2, 1, fun _ _ _ => 1⟩ }

/-- A sensitivity map of the contracted 2x2x1 output shape. -/
def c2Pre : Tensor3 := ⟨2, 2, 1, fun _ _ _ => 1⟩

/-- C2 witness: the backward pass of the concrete layer succeeds and its
buffers satisfy the accumulate / overwrite description. -/
theorem backward_gradient_buffers_witness :
    ∃ L2, c2Layer.backward c2Pre = .ok L2 ∧
      L2.filters.length = 1 ∧
      (∀ a b c, L2.delta.data a b c =
        (c2Layer.delta.data a b c + ∑ t ∈ Finset.range c2Layer.filters.length,
          (backwardDeltaA c2Layer c2Pre t).1.data a b c) *
          c2Layer.activator.backward (c2Layer.input.data a b c)) ∧
      (L2.filters.getD 0 dummyFilter).delta_b =
        ((backwardExpanded c2Layer c2Pre).sliceChannel 0).sumAll ∧
      (L2.filters.getD 0 dummyFilter).delta_W.data 0 0 0 =
        windowSum (c2Layer.padded_input.sliceChannel 0).promote
          ((backwardExpanded c2Layer c2Pre).sliceChannel 0).promote 0 0 := by
  obtain ⟨L2, h1, h2, h3, h4, h5, h6, h7⟩ :=
    backward_gradient_buffers c2Layer c2Pre rfl rfl rfl rfl rfl rfl rfl rfl rfl rfl
      (by decide) (by decide) rfl rfl
      (fun f hf => by
        have hf2 := List.eq_of_mem_replicate hf
        subst hf2
        exact ⟨rfl, rfl, rfl⟩)
  exact ⟨L2, h1, by rw [h2]; rfl, h3, h4 0 (by decide),
    h6 0 (by decide) 0 0 0 (by decide) (by decide) (by decide)⟩

end LightNN
